import Mathlib

/-!
# influxdb-srelay, package `utils`

A shallow embedding of `src/utils/utils.go` and proofs about it.

Conventions of the embedding.

* Go strings are modelled by `String`; every separator the code looks for
  (`", "`, `" "`, `":"`, `"/"`) is ASCII, so splitting by characters and
  splitting by bytes agree.
* The three package-level variables `logDir`, `relayVersion`, `logfiles` become
  the fields of `State`, which is passed explicitly.  `State` also carries the
  state of the operating system (`world`) and the list of observable effects
  performed so far (`trace`): messages handed to the global logger, calls of
  `os.OpenFile`, calls of `(*os.File).Close`.
* A `*os.File` is `Option Handle`; `none` is the nil pointer.
* The operating system is a parameter `os : OS W`: its answers are not
  constrained.
-/

namespace Utils

/-! ## zerolog: levels, writers, loggers -/

/-- Modelled from the spec: the severity levels of the logging library, in the
order `debug < info < warn < error < fatal < panic` (zerolog's constants
`DebugLevel` ... `PanicLevel`). -/
inductive Level where
  | DebugLevel
  | InfoLevel
  | WarnLevel
  | ErrorLevel
  | FatalLevel
  | PanicLevel
  deriving DecidableEq, Repr

/-- Numeric value of a level (zerolog: Debug = 0, ..., Panic = 5). A logger
with threshold `l` drops every entry whose level has a smaller value. -/
def Level.val : Level → Nat
  | .DebugLevel => 0
  | .InfoLevel => 1
  | .WarnLevel => 2
  | .ErrorLevel => 3
  | .FatalLevel => 4
  | .PanicLevel => 5

/-- An operating-system file: what a non-nil `*os.File` points to. -/
abbrev Handle := Nat

/-- The handle behind `os.Stderr`. -/
def Stderr : Handle := 2

/-- The value `zerolog.ConsoleWriter{Out: i, TimeFormat: tf}`. -/
structure ConsoleWriter where
  Out : Option Handle
  TimeFormat : String
  deriving DecidableEq, Repr

/-- The value `zerolog.Logger`: the writer it is bound to and its threshold. -/
structure Logger where
  w : ConsoleWriter
  level : Level
  deriving DecidableEq, Repr

/-- Go `log.Output(w)`: a copy of the global logger writing to `w`. The global
logger has the zero threshold, `DebugLevel`. -/
def log_Output (w : ConsoleWriter) : Logger :=
  { w := w, level := Level.DebugLevel }

/-- Method `l.Level(lvl)`: a child logger with threshold `lvl`. -/
def Logger.Level (l : Logger) (lvl : Utils.Level) : Logger :=
  { l with level := lvl }

/-! ## path/filepath (Unix) -/

/-- Go `os.IsPathSeparator` on Unix. -/
def isPathSeparator (c : Char) : Bool := c == '/'

/-- Go `filepath.IsAbs` on Unix: `strings.HasPrefix(path, "/")`. -/
def IsAbs (path : String) : Bool :=
  match path.data with
  | c :: _ => c == '/'
  | [] => false

/-- The inner loop of the `..` case of `filepath.Clean`:
`for out.w > dotdot && !os.IsPathSeparator(out.index(out.w)) { out.w-- }`.
The argument is `out.w`, the result is the final `out.w`. -/
def cleanBacktrack (buf : List Char) (dotdot : Nat) : Nat → Nat
  | 0 => 0
  | w + 1 =>
    if w + 1 > dotdot && !isPathSeparator (buf.getD (w + 1) '/') then
      cleanBacktrack buf dotdot w
    else w + 1

/-- The main loop `for r < n { switch ... }` of `filepath.Clean`. `rest` is
`path[r:]`, `out` holds the `out.w` bytes written so far. Every iteration
consumes at least one byte of `rest`; the first argument bounds the number of
iterations and `none` is returned only when it is exhausted. -/
def cleanLoop (rooted : Bool) : Nat → List Char → List Char → Nat → Option (List Char)
  | _, [], out, _ => some out
  | 0, _ :: _, _, _ => none
  | fuel + 1, c :: rest, out, dotdot =>
    if isPathSeparator c then
      -- empty path element
      cleanLoop rooted fuel rest out dotdot
    else if c == '.' && (rest.isEmpty || isPathSeparator (rest.headD '/')) then
      -- . element
      cleanLoop rooted fuel rest out dotdot
    else if c == '.' && rest.head? == some '.'
        && ((rest.drop 1).isEmpty || isPathSeparator ((rest.drop 1).headD '/')) then
      -- .. element: remove to last separator
      if out.length > dotdot then
        -- can backtrack
        cleanLoop rooted fuel (rest.drop 1)
          (out.take (cleanBacktrack out dotdot (out.length - 1))) dotdot
      else if !rooted then
        -- cannot backtrack, but not rooted, so append .. element
        let out1 := (if out.length > 0 then out ++ ['/'] else out) ++ ['.', '.']
        cleanLoop rooted fuel (rest.drop 1) out1 out1.length
      else
        cleanLoop rooted fuel (rest.drop 1) out dotdot
    else
      -- real path element: add slash if needed, copy element
      let out1 :=
        if (rooted && out.length != 1) || (!rooted && out.length != 0) then out ++ ['/']
        else out
      cleanLoop rooted fuel ((c :: rest).dropWhile (fun x => !isPathSeparator x))
        (out1 ++ (c :: rest).takeWhile (fun x => !isPathSeparator x)) dotdot

/-- The buffer `out` at the end of the loop of `filepath.Clean`, for the path
with first byte `c` and remaining bytes `cs`: a rooted path starts with the
separator written and `r, dotdot = 1, 1`. -/
def cleanBuf (c : Char) (cs : List Char) : Option (List Char) :=
  if isPathSeparator c then cleanLoop true (cs.length + 1) cs ['/'] 1
  else cleanLoop false (cs.length + 2) (c :: cs) [] 0

/-- Go `filepath.Clean` on Unix (no volume name, `FromSlash` is the identity):
the empty path and the empty buffer give `"."`. -/
def Clean (path : String) : String :=
  match path.data with
  | [] => "."
  | c :: cs =>
    match cleanBuf c cs with
    | some [] => "."
    | some out => String.mk out
    | none => path

/-- Go `filepath.Join` on Unix: the elements from the first non-empty one on are
joined with `/` and the result is cleaned; all elements empty gives `""`. -/
def Join : List String → String
  | [] => ""
  | e :: es => if e ≠ "" then Clean (String.intercalate "/" (e :: es)) else Join es

/-! ## The operating system and the package state -/

/-- The operating system seen by the package: `OpenFile w name flag perm` is
`os.OpenFile(name, flag, perm)` in world `w`, which returns either a file or an
error (and then a nil file); `Close w h` is `Close` on the open-or-closed file
`h`, returning the error, if any. Both may change the world. -/
structure OS (W : Type) where
  OpenFile : W → String → Nat → Nat → Except String Handle × W
  Close : W → Handle → Option String × W

/-- Observable effects, in the order they happen. -/
inductive Event where
  /-- a message handed to the global logger `log.Logger` at a level -/
  | log (level : Level) (msg : String)
  /-- a call `os.OpenFile(name, flag, perm)` and its answer -/
  | openFile (name : String) (flag perm : Nat) (res : Except String Handle)
  /-- a call `f.Close()` on a `*os.File` and its answer -/
  | close (file : Option Handle) (err : Option String)

/-- The struct `LogFile`. -/
structure LogFile where
  Name : String
  File : Option Handle
  deriving DecidableEq, Repr

/-- The package-level variables, the world and the effects so far. -/
structure State (W : Type) where
  logDir : String
  relayVersion : String
  logfiles : List LogFile
  world : W
  trace : List Event

/-- Go `os.O_RDWR` (Linux). -/
def O_RDWR : Nat := 0x2
/-- Go `os.O_CREATE` (Linux). -/
def O_CREATE : Nat := 0x40
/-- Go `os.O_APPEND` (Linux). -/
def O_APPEND : Nat := 0x400

/-- Function `SetLogdir` (utils.go:27). -/
def SetLogdir {W : Type} (st : State W) (ld : String) : State W :=
  { st with logDir := ld }

/-- Function `SetVersion` (utils.go:31). -/
def SetVersion {W : Type} (st : State W) (v : String) : State W :=
  { st with relayVersion := v }

/-- Function `ResetLogFiles` (utils.go:64). -/
def ResetLogFiles {W : Type} (st : State W) : State W :=
  { st with logfiles := [] }

/-- Method `(*os.File).Close`: a nil receiver answers `ErrInvalid` without reaching
the operating system. -/
def File_Close {W : Type} (os : OS W) (w : W) : Option Handle → Option String × W
  | none => (some "invalid argument", w)
  | some h => os.Close w h

/-- The body of the loop of `CloseLogFiles` for one entry `f`. -/
def closeOne {W : Type} (os : OS W) (st : State W) (f : LogFile) : State W :=
  let r := File_Close os st.world f.File
  let tr1 := st.trace ++ [Event.close f.File r.1]
  let tr2 :=
    match r.1 with
    | some err =>
      tr1 ++ [Event.log Level.ErrorLevel
        ("Error on close log file " ++ f.Name ++ ":  Err: " ++ err)]
    | none => tr1
  { st with
    world := r.2
    trace := tr2 ++ [Event.log Level.InfoLevel ("log file " ++ f.Name ++ ": closed ok!")] }

/-- Function `CloseLogFiles` (utils.go:68): `for _, f := range logfiles { ... }`. -/
def CloseLogFiles {W : Type} (os : OS W) (st : State W) : State W :=
  st.logfiles.foldl (closeOne os) st

/-- The path that `GetConsoleLogFormated` opens for a non-empty `logfile`
(utils.go:83-86). -/
def resolveFilename (logDir logfile : String) : String :=
  if !IsAbs logfile then Join [logDir, logfile] else logfile

/-- The `switch level` of `GetConsoleLogFormated` (utils.go:100-115). -/
def levelSwitch (f : Logger) (level : String) : Logger :=
  match level with
  | "panic" => f.Level Level.PanicLevel
  | "fatal" => f.Level Level.FatalLevel
  | "Error" => f.Level Level.ErrorLevel
  | "error" => f.Level Level.ErrorLevel
  | "warn" => f.Level Level.WarnLevel
  | "warning" => f.Level Level.WarnLevel
  | "info" => f.Level Level.InfoLevel
  | "debug" => f.Level Level.DebugLevel
  | _ => f.Level Level.InfoLevel

/-- Function `GetConsoleLogFormated` (utils.go:78): the returned logger and the state
after the call. -/
def GetConsoleLogFormated {W : Type} (os : OS W) (st : State W)
    (logfile level : String) : Logger × State W :=
  let r : Option Handle × State W :=
    if logfile.length > 0 then
      let filename := resolveFilename st.logDir logfile
      let tr1 := st.trace ++
        [Event.log Level.InfoLevel ("trying to open log file " ++ filename ++ " .....")]
      let o := os.OpenFile st.world filename (O_APPEND ||| O_CREATE ||| O_RDWR) 0o644
      let tr2 := tr1 ++ [Event.openFile filename (O_APPEND ||| O_CREATE ||| O_RDWR) 0o644 o.1]
      match o.1 with
      | Except.error err =>
        (none,
          { st with
            logfiles := st.logfiles ++ [{ Name := filename, File := none }]
            world := o.2
            trace := tr2 ++ [Event.log Level.ErrorLevel
              ("Error on opening file " ++ filename ++ " : ERROR: " ++ err)] })
      | Except.ok file =>
        (some file,
          { st with
            logfiles := st.logfiles ++ [{ Name := filename, File := some file }]
            world := o.2
            trace := tr2 })
    else (some Stderr, st)
  let writer : ConsoleWriter := { Out := r.1, TimeFormat := "2006-01-02 15:04:05" }
  (levelSwitch (log_Output writer) level, r.2)

/-! ## strings -/

/-- Go `strings.Index(s, substr)`: the index of the first instance of `substr` in
`s`; `none` stands for `-1`. -/
def Index : List Char → List Char → Option Nat
  | [], substr => if substr.isPrefixOf [] then some 0 else none
  | c :: cs, substr =>
    if substr.isPrefixOf (c :: cs) then some 0 else (Index cs substr).map (· + 1)

/-- The loop of `strings.Count` for a non-empty `substr`; the first argument
bounds the number of iterations. -/
def countLoop (substr : List Char) : Nat → List Char → Nat → Nat
  | 0, _, n => n
  | fuel + 1, s, n =>
    match Index s substr with
    | none => n
    | some i => countLoop substr fuel (s.drop (i + substr.length)) (n + 1)

/-- Go `strings.Count(s, substr)`: the number of non-overlapping instances of
`substr`; for the empty `substr`, one more than the number of characters. -/
def Count (s substr : List Char) : Nat :=
  if substr.isEmpty then s.length + 1 else countLoop substr (s.length + 1) s 0

/-- The loop of `strings.explode`, filling the `n` remaining slots. -/
def explodeLoop : Nat → List Char → List (List Char)
  | 0, _ => []
  | 1, s => [s]
  | k + 2, [] => [] :: explodeLoop (k + 1) []
  | k + 2, c :: cs => [c] :: explodeLoop (k + 1) cs

/-- Go `strings.explode(s, n)`. -/
def explode (s : List Char) (n : Int) : List (List Char) :=
  explodeLoop (if n < 0 ∨ n > s.length then s.length else n.toNat) s

/-- The loop `for i < n { m := Index(s, sep); if m < 0 { break }; ... }` of
`strings.genSplit`, followed by `a[i] = s; return a[:i+1]`. The first numeric
argument is `n - i`. -/
def genSplitLoop (sep : List Char) (sepSave : Nat) : Nat → List Char → List (List Char)
  | 0, s => [s]
  | k + 1, s =>
    match Index s sep with
    | none => [s]
    | some m => s.take (m + sepSave) :: genSplitLoop sep sepSave k (s.drop (m + sep.length))

/-- Go `strings.genSplit(s, sep, sepSave, n)`. -/
def genSplit (s sep : List Char) (sepSave : Nat) (n : Int) : List (List Char) :=
  if n = 0 then []
  else if sep.isEmpty then explode s n
  else
    let n1 : Nat := if n < 0 then Count s sep + 1 else n.toNat
    let n2 : Nat := if n1 > s.length + 1 then s.length + 1 else n1
    genSplitLoop sep sepSave (n2 - 1) s

/-- Go `strings.Split(s, sep)`. -/
def Split (s sep : String) : List String :=
  (genSplit s.data sep.data 0 (-1)).map String.mk

/-- Go `strings.SplitN(s, sep, n)`. -/
def SplitN (s sep : String) (n : Int) : List String :=
  (genSplit s.data sep.data 0 n).map String.mk

/-! ## net/http requests -/

/-- The types `http.Header` and `url.Values`: keys with their lists of values. -/
abbrev Values := List (String × List String)

/-- Methods `Header.Get` / `Values.Get` for a key in canonical form: the first value
stored under the key, `""` if there is none. -/
def Values.Get (h : Values) (key : String) : String :=
  match h.lookup key with
  | some (v :: _) => v
  | _ => ""

/-- The parts of `*http.Request` the package reads: `r.RemoteAddr`, `r.Header`
and the parsed query `r.URL.Query()`. -/
structure Request where
  RemoteAddr : String
  Header : Values
  Query : Values

/-- Function `GetSourceFromRequest` (utils.go:35). -/
def GetSourceFromRequest (r : Request) : String × String :=
  let ipAddress := r.RemoteAddr
  let fwdAddress := r.Header.Get "X-Forwarded-For"
  if fwdAddress ≠ "" then
    -- Got X-Forwarded-For
    let ips := Split fwdAddress ", "
    let ipAddress :=
      match ips with
      | ip0 :: _ :: _ => ip0  -- len(ips) > 1: ips[0]
      | _ => fwdAddress
    (ipAddress, fwdAddress)
  else (ipAddress, ipAddress)

/-- Function `GetUserFromRequest` (utils.go:121). `DecodeString` is
`base64.StdEncoding.DecodeString` with its error dropped, read as a string.
The result is `none` when an index expression is out of range. -/
def GetUserFromRequest (DecodeString : String → String) (r : Request) : Option String :=
  let auth := SplitN (r.Header.Get "Authorization") " " 2
  let res : Option (String × Bool) :=
    match auth with
    | [a0, a1] =>
      if a0 ≠ "Basic" then some ("", false)
      else
        let payload := DecodeString a1
        match SplitN payload ":" 2 with
        | p0 :: _ => some (p0, true)
        | [] => none
    | _ => some ("", false)
  res.map fun (username, found) =>
    let username := if !found then r.Query.Get "u" else username
    if username.length > 0 then username else "-"

/-! ## Sequences of calls, projections of the trace, a sample system -/

/-- A sequence of `GetConsoleLogFormated` calls, each with its `(logfile, level)`
arguments, run one after the other: the loggers returned, in call order, and
the final state. -/
def runCalls {W : Type} (os : OS W) (st : State W) :
    List (String × String) → List Logger × State W
  | [] => ([], st)
  | c :: cs =>
    let r := GetConsoleLogFormated os st c.1 c.2
    let rs := runCalls os r.2 cs
    (r.1 :: rs.1, rs.2)

/-- The operations of the package that touch the registry. -/
inductive Op where
  | SetLogdir (ld : String)
  | SetVersion (v : String)
  | ResetLogFiles
  | CloseLogFiles
  | GetConsoleLogFormated (logfile level : String)
  deriving DecidableEq

/-- The state after one operation. -/
def step {W : Type} (os : OS W) (st : State W) : Op → State W
  | .SetLogdir ld => SetLogdir st ld
  | .SetVersion v => SetVersion st v
  | .ResetLogFiles => ResetLogFiles st
  | .CloseLogFiles => CloseLogFiles os st
  | .GetConsoleLogFormated logfile level => (GetConsoleLogFormated os st logfile level).2

/-- The `os.OpenFile` calls of a trace: the name opened and the `*os.File`
returned (nil on error). -/
def openCalls : List Event → List (String × Option Handle)
  | [] => []
  | Event.openFile name _ _ (Except.ok h) :: es => (name, some h) :: openCalls es
  | Event.openFile name _ _ (Except.error _) :: es => (name, none) :: openCalls es
  | _ :: es => openCalls es

/-- The `Close` calls of a trace: the receiver and the error returned. -/
def closeCalls : List Event → List (Option Handle × Option String)
  | [] => []
  | Event.close file err :: es => (file, err) :: closeCalls es
  | _ :: es => closeCalls es

/-- The messages of a trace logged at `lvl`. -/
def logsAt (lvl : Level) : List Event → List String
  | [] => []
  | Event.log l msg :: es => if l = lvl then msg :: logsAt lvl es else logsAt lvl es
  | _ :: es => logsAt lvl es

/-- The error message `CloseLogFiles` logs for sink `f` when closing it
answered `err`; nothing for a close without error. -/
def closeReport (p : LogFile × Option Handle × Option String) : Option String :=
  p.2.2.map fun err => "Error on close log file " ++ p.1.Name ++ ":  Err: " ++ err

/-- The world of the sample system: the next free handle and the handles that
are open. -/
structure SampleWorld where
  next : Handle
  opened : List Handle
  deriving DecidableEq, Repr

/-- A sample operating system: opening fails for names below `/nonexistent/`
and succeeds otherwise with a fresh handle; closing fails on a handle that is
not open. -/
def sampleOS : OS SampleWorld where
  OpenFile w name _ _ :=
    if "/nonexistent/".data.isPrefixOf name.data then
      (Except.error "no such file or directory", w)
    else (Except.ok w.next, { next := w.next + 1, opened := w.next :: w.opened })
  Close w h :=
    if h ∈ w.opened then (none, { w with opened := w.opened.erase h })
    else (some "file already closed", w)

/-- A sample state: base directory `/var/log/relay`, no sink, handles 0 to 2
taken by the standard streams. -/
def sampleState : State SampleWorld :=
  { logDir := "/var/log/relay", relayVersion := "0.6.1", logfiles := [],
    world := { next := 3, opened := [] }, trace := [] }

/-- The value of a character of the standard base64 alphabet. -/
def b64Value (c : Char) : Option Nat :=
  if 'A' ≤ c ∧ c ≤ 'Z' then some (c.toNat - 'A'.toNat)
  else if 'a' ≤ c ∧ c ≤ 'z' then some (c.toNat - 'a'.toNat + 26)
  else if '0' ≤ c ∧ c ≤ '9' then some (c.toNat - '0'.toNat + 52)
  else if c = '+' then some 62
  else if c = '/' then some 63
  else none

/-- The bytes encoded by a sequence of 6-bit values, four values for three
bytes; a final group of three or two values gives two bytes or one. -/
def b64Bytes : List Nat → List Nat
  | a :: b :: c :: d :: rest =>
    (a * 4 + b / 16) :: ((b % 16) * 16 + c / 4) :: ((c % 4) * 64 + d) :: b64Bytes rest
  | [a, b, c] => [a * 4 + b / 16, (b % 16) * 16 + c / 4]
  | [a, b] => [a * 4 + b / 16]
  | _ => []

/-- A sample decoder, used in evaluations only: standard base64 of well-formed
input up to the padding, each byte read as one character. -/
def sampleDecode (s : String) : String :=
  String.mk ((b64Bytes ((s.data.takeWhile (fun c => c != '=')).filterMap b64Value)).map
    Char.ofNat)

/-- A path element that `filepath.Clean` copies as it is: not empty, without a
separator, and neither `.` nor `..`. -/
def plainElem (e : List Char) : Prop :=
  e ≠ [] ∧ '/' ∉ e ∧ e ≠ ['.'] ∧ e ≠ ['.', '.']

instance (e : List Char) : Decidable (plainElem e) := by
  unfold plainElem
  infer_instance

/-- The elements joined by single separators. -/
def joinElems : List (List Char) → List Char
  | [] => []
  | [e] => e
  | e :: e2 :: es => e ++ '/' :: joinElems (e2 :: es)

/-- A sample state with three tracked sinks: one whose open failed (nil
handle), one whose handle 3 is no longer open, one whose handle 4 is open. -/
def sampleClosingState : State SampleWorld :=
  { logDir := "/var/log/relay", relayVersion := "0.6.1",
    logfiles := [{ Name := "/nonexistent/relay.log", File := none },
                 { Name := "/var/log/relay/access.log", File := some 3 },
                 { Name := "/var/log/relay/relay.log", File := some 4 }],
    world := { next := 5, opened := [4] }, trace := [] }

/-- The names the `switch` of `GetConsoleLogFormated` recognises. -/
def knownLevelNames : List String :=
  ["debug", "info", "warn", "warning", "error", "Error", "fatal", "panic"]

/-- The time layout handed to the console writer. -/
def timeFormat : String := "2006-01-02 15:04:05"

/-- The flags `GetConsoleLogFormated` opens a file with. -/
def openFlags : Nat := O_APPEND ||| O_CREATE ||| O_RDWR

/-- A request whose `X-Forwarded-For` header lists two addresses separated by
a comma alone. -/
def commaOnlyRequest : Request :=
  { RemoteAddr := "10.0.0.9:51234"
    Header := [("X-Forwarded-For", ["1.1.1.1,2.2.2.2"])]
    Query := [] }

/-- A request whose `X-Forwarded-For` header lists two addresses separated by
a comma and a space. -/
def forwardedRequest : Request :=
  { RemoteAddr := "10.0.0.9:51234"
    Header := [("X-Forwarded-For", ["1.1.1.1, 2.2.2.2"])]
    Query := [] }

/-- A request with basic credentials and a query parameter `u`. -/
def basicRequest : Request :=
  { RemoteAddr := "10.0.0.9:51234"
    Header := [("Authorization", ["Basic YWRtaW46c2VjcmV0"])]
    Query := [("u", ["guest"])] }



/-! ## Level mapping (C1) -/

theorem levelSwitch_level_of_unknown (f : Logger) (level : String)
    (h : level ∉ knownLevelNames) : (levelSwitch f level).level = Level.InfoLevel := by
  simp only [knownLevelNames, List.mem_cons, List.mem_singleton, not_or, List.not_mem_nil,
    or_false] at h
  obtain ⟨h1, h2, h3, h4, h5, h6, h7, h8⟩ := h
  unfold levelSwitch
  split <;> first | rfl | contradiction

/-- C1: for every path, the logger returned by `GetConsoleLogFormated` has
threshold Debug for "debug", Info for "info", Warn for "warn" and "warning",
Error for "error" and "Error", Fatal for "fatal", Panic for "panic", and Info
for every other level name (in particular "", "DEBUG", "Warn"); along
debug, info, warn, error, fatal, panic the thresholds strictly increase. -/
theorem GetConsoleLogFormated_level_mapping {W : Type} (os : OS W) (st : State W)
    (path : String) :
    (GetConsoleLogFormated os st path "debug").1.level = Level.DebugLevel ∧
    (GetConsoleLogFormated os st path "info").1.level = Level.InfoLevel ∧
    (GetConsoleLogFormated os st path "warn").1.level = Level.WarnLevel ∧
    (GetConsoleLogFormated os st path "warning").1.level = Level.WarnLevel ∧
    (GetConsoleLogFormated os st path "error").1.level = Level.ErrorLevel ∧
    (GetConsoleLogFormated os st path "Error").1.level = Level.ErrorLevel ∧
    (GetConsoleLogFormated os st path "fatal").1.level = Level.FatalLevel ∧
    (GetConsoleLogFormated os st path "panic").1.level = Level.PanicLevel ∧
    (∀ level : String, level ∉ knownLevelNames →
      (GetConsoleLogFormated os st path level).1.level = Level.InfoLevel) ∧
    (GetConsoleLogFormated os st path "").1.level = Level.InfoLevel ∧
    (GetConsoleLogFormated os st path "DEBUG").1.level = Level.InfoLevel ∧
    (GetConsoleLogFormated os st path "Warn").1.level = Level.InfoLevel ∧
    List.Pairwise (fun a b => a < b)
      (["debug", "info", "warn", "error", "fatal", "panic"].map fun name =>
        (GetConsoleLogFormated os st path name).1.level.val) := by
  refine ⟨rfl, rfl, rfl, rfl, rfl, rfl, rfl, rfl, ?_, rfl, rfl, rfl, ?_⟩
  · intro level h
    exact levelSwitch_level_of_unknown _ level h
  · simp [GetConsoleLogFormated, levelSwitch, Logger.Level, Level.val]

/-- Witness of C1 on the sample system: a name the switch does not know. -/
theorem GetConsoleLogFormated_level_mapping_witness :
    "verbose" ∉ knownLevelNames ∧
    (GetConsoleLogFormated sampleOS sampleState "access.log" "verbose").1.level
      = Level.InfoLevel :=
  ⟨by decide,
   (GetConsoleLogFormated_level_mapping sampleOS sampleState "access.log").2.2.2.2.2.2.2.2.1
     "verbose" (by decide)⟩

/-! ## One call of `GetConsoleLogFormated` -/

theorem String_length_pos_of_ne_empty (p : String) (h : p ≠ "") : p.length > 0 := by
  cases p with
  | mk data =>
    cases data with
    | nil => exact absurd rfl h
    | cons c cs => simp [String.length]

theorem GetConsoleLogFormated_empty {W : Type} (os : OS W) (st : State W) (level : String) :
    GetConsoleLogFormated os st "" level
      = (levelSwitch (log_Output { Out := some Stderr, TimeFormat := timeFormat }) level, st) := by
  rfl

theorem GetConsoleLogFormated_ok {W : Type} (os : OS W) (st : State W) (p level : String)
    (hp : p ≠ "") (file : Handle)
    (ho : (os.OpenFile st.world (resolveFilename st.logDir p) openFlags 0o644).1
      = Except.ok file) :
    GetConsoleLogFormated os st p level
      = (levelSwitch (log_Output { Out := some file, TimeFormat := timeFormat }) level,
          { st with
            logfiles := st.logfiles ++
              [{ Name := resolveFilename st.logDir p, File := some file }]
            world := (os.OpenFile st.world (resolveFilename st.logDir p) openFlags 0o644).2
            trace := st.trace ++
              [Event.log Level.InfoLevel
                ("trying to open log file " ++ resolveFilename st.logDir p ++ " ....."),
               Event.openFile (resolveFilename st.logDir p) openFlags 0o644
                 (Except.ok file)] }) := by
  have hl := String_length_pos_of_ne_empty p hp
  unfold openFlags at ho
  simp only [GetConsoleLogFormated, hl, if_true, ho, timeFormat, openFlags, List.append_assoc,
    List.singleton_append]

theorem GetConsoleLogFormated_error {W : Type} (os : OS W) (st : State W) (p level : String)
    (hp : p ≠ "") (err : String)
    (ho : (os.OpenFile st.world (resolveFilename st.logDir p) openFlags 0o644).1
      = Except.error err) :
    GetConsoleLogFormated os st p level
      = (levelSwitch (log_Output { Out := none, TimeFormat := timeFormat }) level,
          { st with
            logfiles := st.logfiles ++ [{ Name := resolveFilename st.logDir p, File := none }]
            world := (os.OpenFile st.world (resolveFilename st.logDir p) openFlags 0o644).2
            trace := st.trace ++
              [Event.log Level.InfoLevel
                ("trying to open log file " ++ resolveFilename st.logDir p ++ " ....."),
               Event.openFile (resolveFilename st.logDir p) openFlags 0o644
                 (Except.error err),
               Event.log Level.ErrorLevel
                 ("Error on opening file " ++ resolveFilename st.logDir p
                   ++ " : ERROR: " ++ err)] }) := by
  have hl := String_length_pos_of_ne_empty p hp
  unfold openFlags at ho
  simp only [GetConsoleLogFormated, hl, if_true, ho, timeFormat, openFlags, List.append_assoc,
    List.singleton_append, List.cons_append, List.nil_append]

theorem levelSwitch_w (f : Logger) (level : String) : (levelSwitch f level).w = f.w := by
  unfold levelSwitch
  split <;> rfl

/-- C2: a call of `GetConsoleLogFormated` with the empty path leaves the whole
state as it was (the sink collection, `logDir`, `relayVersion`, the world, and
the trace, so no file is opened and nothing is logged) and the returned
logger writes to standard error. -/
theorem GetConsoleLogFormated_empty_path {W : Type} (os : OS W) (st : State W)
    (level : String) :
    (GetConsoleLogFormated os st "" level).2 = st ∧
    (GetConsoleLogFormated os st "" level).2.logfiles = st.logfiles ∧
    (GetConsoleLogFormated os st "" level).2.logDir = st.logDir ∧
    (GetConsoleLogFormated os st "" level).2.relayVersion = st.relayVersion ∧
    openCalls (GetConsoleLogFormated os st "" level).2.trace = openCalls st.trace ∧
    (GetConsoleLogFormated os st "" level).1.w.Out = some Stderr := by
  rw [GetConsoleLogFormated_empty]
  refine ⟨rfl, rfl, rfl, rfl, rfl, ?_⟩
  rw [levelSwitch_w]
  rfl

/-! ## Projections of a trace -/

theorem openCalls_append (a b : List Event) :
    openCalls (a ++ b) = openCalls a ++ openCalls b := by
  induction a with
  | nil => rfl
  | cons e es ih =>
    cases e with
    | log l m => simpa [openCalls] using ih
    | openFile n f pm r =>
      cases r with
      | error err => simpa [openCalls] using ih
      | ok h => simpa [openCalls] using ih
    | close f err => simpa [openCalls] using ih

theorem closeCalls_append (a b : List Event) :
    closeCalls (a ++ b) = closeCalls a ++ closeCalls b := by
  induction a with
  | nil => rfl
  | cons e es ih =>
    cases e with
    | log l m => simpa [closeCalls] using ih
    | openFile n f pm r => simpa [closeCalls] using ih
    | close f err => simpa [closeCalls] using ih

theorem logsAt_append (lvl : Level) (a b : List Event) :
    logsAt lvl (a ++ b) = logsAt lvl a ++ logsAt lvl b := by
  induction a with
  | nil => rfl
  | cons e es ih =>
    cases e with
    | log l m =>
      by_cases hl : l = lvl
      · simp [logsAt, hl, ih]
      · simp [logsAt, hl, ih]
    | openFile n f pm r => simpa [logsAt] using ih
    | close f err => simpa [logsAt] using ih

/-- What one call with a non-empty path does, whatever the answer of the
operating system: one sink is appended, with the resolved name and the file
the logger writes to, and exactly one file is opened. -/
theorem GetConsoleLogFormated_nonempty {W : Type} (os : OS W) (st : State W)
    (p level : String) (hp : p ≠ "") :
    ∃ (file : Option Handle) (tr : List Event),
      (GetConsoleLogFormated os st p level).1.w.Out = file ∧
      (GetConsoleLogFormated os st p level).2.logfiles
        = st.logfiles ++ [{ Name := resolveFilename st.logDir p, File := file }] ∧
      (GetConsoleLogFormated os st p level).2.logDir = st.logDir ∧
      (GetConsoleLogFormated os st p level).2.relayVersion = st.relayVersion ∧
      (GetConsoleLogFormated os st p level).2.trace = st.trace ++ tr ∧
      openCalls tr = [(resolveFilename st.logDir p, file)] ∧
      closeCalls tr = [] := by
  cases ho : (os.OpenFile st.world (resolveFilename st.logDir p) openFlags 0o644).1 with
  | error err =>
    rw [GetConsoleLogFormated_error os st p level hp err ho]
    exact ⟨none, _, by rw [levelSwitch_w]; rfl, rfl, rfl, rfl, rfl, rfl, rfl⟩
  | ok file =>
    rw [GetConsoleLogFormated_ok os st p level hp file ho]
    exact ⟨some file, _, by rw [levelSwitch_w]; rfl, rfl, rfl, rfl, rfl, rfl, rfl⟩

/-! ## Facts about `filepath.Clean` and `filepath.Join` -/

theorem cleanLoop_isSome (rooted : Bool) (fuel : Nat) :
    ∀ (rest out : List Char) (dotdot : Nat), rest.length ≤ fuel →
      (cleanLoop rooted fuel rest out dotdot).isSome = true := by
  induction fuel with
  | zero =>
    intro rest out dotdot h
    cases rest with
    | nil => simp [cleanLoop]
    | cons c cs => simp at h
  | succ k ih =>
    intro rest out dotdot h
    cases rest with
    | nil => simp [cleanLoop]
    | cons c cs =>
      have hcs : cs.length ≤ k := by simpa using h
      have hd : (cs.drop 1).length ≤ k := by
        simp only [List.length_drop]
        omega
      simp only [cleanLoop]
      split
      · exact ih _ _ _ hcs
      · split
        · exact ih _ _ _ hcs
        · split
          · split
            · exact ih _ _ _ hd
            · split
              · exact ih _ _ _ hd
              · exact ih _ _ _ hd
          · rename_i hsep _ _
            apply ih
            have hc : (!isPathSeparator c) = true := by simpa using hsep
            rw [List.dropWhile_cons, if_pos hc]
            exact Nat.le_trans (List.dropWhile_sublist _).length_le hcs

theorem takeWhile_not_sep (e tail : List Char) (he : '/' ∉ e)
    (ht : tail = [] ∨ ∃ X, tail = '/' :: X) :
    (e ++ tail).takeWhile (fun x => !isPathSeparator x) = e ∧
    (e ++ tail).dropWhile (fun x => !isPathSeparator x) = tail := by
  induction e with
  | nil =>
    rcases ht with rfl | ⟨X, rfl⟩
    · simp
    · simp [isPathSeparator]
  | cons c cs ih =>
    have hc : c ≠ '/' := fun e => he (e ▸ List.mem_cons_self _ _)
    have hcs : '/' ∉ cs := fun e => he (List.mem_cons_of_mem _ e)
    have hp : (!isPathSeparator c) = true := by simp [isPathSeparator, hc]
    obtain ⟨h1, h2⟩ := ih hcs
    constructor
    · rw [List.cons_append, List.takeWhile_cons, if_pos hp, h1]
    · rw [List.cons_append, List.dropWhile_cons, if_pos hp, h2]

/-- One iteration of the loop of `filepath.Clean` on a plain element: the
element is copied, after a separator when one is needed. -/
theorem cleanLoop_plainElem (rooted : Bool) (fuel : Nat) (e tail out : List Char) (dotdot : Nat)
    (he : plainElem e) (ht : tail = [] ∨ ∃ X, tail = '/' :: X) :
    cleanLoop rooted (fuel + 1) (e ++ tail) out dotdot
      = cleanLoop rooted fuel tail
          ((if (rooted && out.length != 1) || (!rooted && out.length != 0) then out ++ ['/']
            else out) ++ e) dotdot := by
  obtain ⟨hne, hsep, hdot, hdotdot⟩ := he
  obtain ⟨htw, hdw⟩ := takeWhile_not_sep e tail hsep ht
  cases e with
  | nil => exact absurd rfl hne
  | cons c tl =>
    have hc : c ≠ '/' := fun e => hsep (e ▸ List.mem_cons_self _ _)
    have htl : '/' ∉ tl := fun e => hsep (List.mem_cons_of_mem _ e)
    have c1 : isPathSeparator c = false := by simp [isPathSeparator, hc]
    have c2 : (c == '.' && ((tl ++ tail).isEmpty || isPathSeparator ((tl ++ tail).headD '/')))
        = false := by
      cases tl with
      | nil =>
        have : c ≠ '.' := fun e => hdot (by rw [e])
        simp [this]
      | cons t tl1 =>
        have : t ≠ '/' := fun e => htl (e ▸ List.mem_cons_self _ _)
        simp [isPathSeparator, this]
    have c3 : (c == '.' && (tl ++ tail).head? == some '.'
        && (((tl ++ tail).drop 1).isEmpty
          || isPathSeparator (((tl ++ tail).drop 1).headD '/'))) = false := by
      cases tl with
      | nil =>
        have : c ≠ '.' := fun e => hdot (by rw [e])
        simp [this]
      | cons t tl1 =>
        cases tl1 with
        | nil =>
          have : ¬ (c = '.' ∧ t = '.') := fun ⟨e1, e2⟩ => hdotdot (by rw [e1, e2])
          by_cases h1 : c = '.'
          · have h2 : t ≠ '.' := fun e => this ⟨h1, e⟩
            simp [h2]
          · simp [h1]
        | cons u tl2 =>
          have : u ≠ '/' := fun e => htl (List.mem_cons_of_mem _ (e ▸ List.mem_cons_self _ _))
          simp [isPathSeparator, this]
    rw [List.cons_append] at htw hdw ⊢
    simp only [cleanLoop, c1, c2, c3, Bool.false_eq_true, if_false, htw, hdw]

theorem joinElems_ne_nil (es : List (List Char)) (hne : es ≠ [])
    (hpl : ∀ e ∈ es, plainElem e) : joinElems es ≠ [] := by
  cases es with
  | nil => exact absurd rfl hne
  | cons e es1 =>
    have he := (hpl e (List.mem_cons_self _ _)).1
    cases es1 with
    | nil => simpa [joinElems] using he
    | cons e2 es2 => simp [joinElems]

theorem joinElems_head_ne_sep (es : List (List Char)) (hpl : ∀ e ∈ es, plainElem e)
    (c : Char) (cs : List Char) (h : joinElems es = c :: cs) : c ≠ '/' := by
  cases es with
  | nil => simp [joinElems] at h
  | cons e es1 =>
    obtain ⟨hne, hsep, -, -⟩ := hpl e (List.mem_cons_self _ _)
    cases e with
    | nil => exact absurd rfl hne
    | cons x xs =>
      have hx : x ≠ '/' := fun e => hsep (e ▸ List.mem_cons_self _ _)
      cases es1 with
      | nil =>
        simp only [joinElems, List.cons.injEq] at h
        exact h.1 ▸ hx
      | cons e2 es2 =>
        simp only [joinElems, List.cons_append, List.cons.injEq] at h
        exact h.1 ▸ hx

theorem joinElems_append (ds ps : List (List Char)) (hd : ds ≠ []) (hp : ps ≠ []) :
    joinElems (ds ++ ps) = joinElems ds ++ '/' :: joinElems ps := by
  induction ds with
  | nil => exact absurd rfl hd
  | cons d ds1 ih =>
    cases ds1 with
    | nil =>
      cases ps with
      | nil => exact absurd rfl hp
      | cons q qs => simp [joinElems]
    | cons d2 ds2 =>
      have := ih (by simp)
      show d ++ '/' :: joinElems (d2 :: ds2 ++ ps)
        = (d ++ '/' :: joinElems (d2 :: ds2)) ++ '/' :: joinElems ps
      rw [this, List.append_assoc]
      rfl

/-- The loop of `filepath.Clean` on plain elements joined by single
separators copies its input, after a separator when one is needed. -/
theorem cleanLoop_joinElems (rooted : Bool) (es : List (List Char)) (hne : es ≠ [])
    (hpl : ∀ e ∈ es, plainElem e) :
    ∀ (fuel : Nat) (out : List Char) (dotdot : Nat), (joinElems es).length ≤ fuel →
      cleanLoop rooted fuel (joinElems es) out dotdot
        = some ((if (rooted && out.length != 1) || (!rooted && out.length != 0)
            then out ++ ['/'] else out) ++ joinElems es) := by
  induction es with
  | nil => exact absurd rfl hne
  | cons e es1 ih =>
    intro fuel out dotdot hfuel
    have he : plainElem e := hpl e (List.mem_cons_self _ _)
    have helen : 1 ≤ e.length := by
      cases e with
      | nil => exact absurd rfl he.1
      | cons x xs => simp
    cases es1 with
    | nil =>
      simp only [joinElems] at hfuel ⊢
      obtain ⟨f, rfl⟩ : ∃ f, fuel = f + 1 := ⟨fuel - 1, by omega⟩
      have := cleanLoop_plainElem rooted f e [] out dotdot he (Or.inl rfl)
      rw [List.append_nil] at this
      rw [this]
      simp [cleanLoop]
    | cons e2 es2 =>
      have ih1 := ih (by simp) (fun x hx => hpl x (List.mem_cons_of_mem _ hx))
      simp only [joinElems] at hfuel ih1 ⊢
      simp only [List.length_append, List.length_cons] at hfuel
      obtain ⟨f, rfl⟩ : ∃ f, fuel = f + 1 + 1 := ⟨fuel - 2, by omega⟩
      rw [cleanLoop_plainElem rooted (f + 1) e _ out dotdot he (Or.inr ⟨_, rfl⟩)]
      have hsepstep : ∀ (X o : List Char),
          cleanLoop rooted (f + 1) ('/' :: X) o dotdot = cleanLoop rooted f X o dotdot := by
        intro X o
        simp [cleanLoop, isPathSeparator]
      rw [hsepstep, ih1 f _ dotdot (by omega)]
      have hcond : ((rooted && ((if (rooted && out.length != 1) || (!rooted && out.length != 0)
            then out ++ ['/'] else out) ++ e).length != 1)
          || (!rooted && ((if (rooted && out.length != 1) || (!rooted && out.length != 0)
            then out ++ ['/'] else out) ++ e).length != 0)) = true := by
        cases rooted
        · simp only [Bool.false_and, Bool.not_false, Bool.true_and, Bool.false_or,
            List.length_append, bne_iff_ne, ne_eq]
          omega
        · simp only [Bool.true_and, Bool.not_true, Bool.false_and, Bool.or_false,
            List.length_append, bne_iff_ne, ne_eq]
          split
          · simp only [List.length_append, List.length_singleton]
            omega
          · rename_i h
            simp only [bne_iff_ne, ne_eq, Decidable.not_not] at h
            omega
      rw [if_pos hcond]
      simp


/-- The loop of `filepath.Clean` always ends with a buffer: the bound on the
number of iterations is never reached. -/
theorem cleanBuf_isSome (c : Char) (cs : List Char) : (cleanBuf c cs).isSome = true := by
  unfold cleanBuf
  split
  · exact cleanLoop_isSome _ _ _ _ _ (Nat.le_succ _)
  · exact cleanLoop_isSome _ _ _ _ _ (by simp)

/-- Go `filepath.Clean` leaves a path made of plain elements joined by single
separators, rooted or not, as it is. -/
theorem Clean_plain (isabs : Bool) (es : List (List Char)) (hne : es ≠ [])
    (hpl : ∀ e ∈ es, plainElem e) :
    Clean (String.mk ((if isabs then ['/'] else []) ++ joinElems es))
      = String.mk ((if isabs then ['/'] else []) ++ joinElems es) := by
  cases hj : joinElems es with
  | nil => exact absurd hj (joinElems_ne_nil es hne hpl)
  | cons x xs =>
    have hx : x ≠ '/' := joinElems_head_ne_sep es hpl x xs hj
    cases isabs with
    | true =>
      have h := cleanLoop_joinElems true es hne hpl (xs.length + 1 + 1) ['/'] 1
        (by rw [hj]; simp)
      rw [hj] at h
      simp only [Clean, cleanBuf, if_true, List.singleton_append, isPathSeparator,
        beq_self_eq_true, List.length_cons, h]
      simp
    | false =>
      have h := cleanLoop_joinElems false es hne hpl (xs.length + 2) [] 0
        (by rw [hj]; simp)
      rw [hj] at h
      have hs : isPathSeparator x = false := by simp [isPathSeparator, hx]
      simp only [Clean, cleanBuf, Bool.false_eq_true, if_false, List.nil_append, hs, h]
      simp

/-- Go `filepath.Join` of a directory and a relative path, both made of plain
elements joined by single separators, is the directory, a separator, and the
path. -/
theorem Join_plain (isabs : Bool) (ds ps : List (List Char)) (hd : ds ≠ []) (hp : ps ≠ [])
    (hdpl : ∀ e ∈ ds, plainElem e) (hppl : ∀ e ∈ ps, plainElem e) :
    Join [String.mk ((if isabs then ['/'] else []) ++ joinElems ds), String.mk (joinElems ps)]
      = String.mk ((if isabs then ['/'] else []) ++ joinElems ds) ++ "/"
          ++ String.mk (joinElems ps) := by
  have hne : String.mk ((if isabs then ['/'] else []) ++ joinElems ds) ≠ "" := by
    intro e
    have h := congrArg String.data e
    have hj := joinElems_ne_nil ds hd hdpl
    simp only [List.append_eq_nil] at h
    exact hj (by simpa using h.2)
  have hcat : String.intercalate "/"
      [String.mk ((if isabs then ['/'] else []) ++ joinElems ds), String.mk (joinElems ps)]
      = String.mk ((if isabs then ['/'] else []) ++ joinElems (ds ++ ps)) := by
    apply String.ext
    simp only [String.intercalate, String.intercalate.go, String.data_append,
      joinElems_append ds ps hd hp, List.append_assoc]
    rfl
  have hall : ∀ e ∈ ds ++ ps, plainElem e := by
    intro e he
    rcases List.mem_append.mp he with h | h
    · exact hdpl e h
    · exact hppl e h
  simp only [Join, hne, ne_eq, not_false_eq_true, if_true]
  rw [hcat, Clean_plain isabs (ds ++ ps) (by simp [hd]) hall]
  apply String.ext
  simp only [String.data_append, joinElems_append ds ps hd hp, List.append_assoc]
  rfl

/-! ## Path resolution (C3) -/

theorem IsAbs_joinElems (ps : List (List Char)) (hppl : ∀ e ∈ ps, plainElem e) :
    IsAbs (String.mk (joinElems ps)) = false := by
  unfold IsAbs
  cases hj : joinElems ps with
  | nil => rfl
  | cons x xs =>
    have hx : x ≠ '/' := joinElems_head_ne_sep ps hppl x xs hj
    simp [hx]

/-- C3: for a non-empty path `p`, the name that `GetConsoleLogFormated` opens
and the `Name` of the sink it records are both `p` itself when `p` is
absolute, and both `filepath.Join(logDir, p)` when `p` is relative. With
`logDir = "/var/log/relay"` and `p = "access.log"` that name is
`"/var/log/relay/access.log"`; more generally, when `logDir` (rooted or not)
and `p` are made of plain elements joined by single separators, it is
`logDir`, a separator, and `p`. -/
theorem GetConsoleLogFormated_resolved_path {W : Type} (os : OS W) (st : State W)
    (p level : String) (hp : p ≠ "") :
    (IsAbs p = true →
      (openCalls (GetConsoleLogFormated os st p level).2.trace).map (fun c => c.1)
        = (openCalls st.trace).map (fun c => c.1) ++ [p] ∧
      (GetConsoleLogFormated os st p level).2.logfiles.map (fun f => f.Name)
        = st.logfiles.map (fun f => f.Name) ++ [p]) ∧
    (IsAbs p = false →
      (openCalls (GetConsoleLogFormated os st p level).2.trace).map (fun c => c.1)
        = (openCalls st.trace).map (fun c => c.1) ++ [Join [st.logDir, p]] ∧
      (GetConsoleLogFormated os st p level).2.logfiles.map (fun f => f.Name)
        = st.logfiles.map (fun f => f.Name) ++ [Join [st.logDir, p]]) ∧
    (∀ (os1 : OS W) (st1 : State W), st1.logDir = "/var/log/relay" →
      (openCalls (GetConsoleLogFormated os1 st1 "access.log" level).2.trace).map (fun c => c.1)
        = (openCalls st1.trace).map (fun c => c.1) ++ ["/var/log/relay/access.log"] ∧
      (GetConsoleLogFormated os1 st1 "access.log" level).2.logfiles.map (fun f => f.Name)
        = st1.logfiles.map (fun f => f.Name) ++ ["/var/log/relay/access.log"]) ∧
    (∀ (isabs : Bool) (ds ps : List (List Char)), ds ≠ [] → ps ≠ [] →
      (∀ e ∈ ds, plainElem e) → (∀ e ∈ ps, plainElem e) →
      st.logDir = String.mk ((if isabs then ['/'] else []) ++ joinElems ds) →
      p = String.mk (joinElems ps) →
      (openCalls (GetConsoleLogFormated os st p level).2.trace).map (fun c => c.1)
        = (openCalls st.trace).map (fun c => c.1) ++ [st.logDir ++ "/" ++ p] ∧
      (GetConsoleLogFormated os st p level).2.logfiles.map (fun f => f.Name)
        = st.logfiles.map (fun f => f.Name) ++ [st.logDir ++ "/" ++ p]) := by
  have key : ∀ (os2 : OS W) (st2 : State W) (q : String), q ≠ "" →
      (openCalls (GetConsoleLogFormated os2 st2 q level).2.trace).map (fun c => c.1)
        = (openCalls st2.trace).map (fun c => c.1) ++ [resolveFilename st2.logDir q] ∧
      (GetConsoleLogFormated os2 st2 q level).2.logfiles.map (fun f => f.Name)
        = st2.logfiles.map (fun f => f.Name) ++ [resolveFilename st2.logDir q] := by
    intro os2 st2 q hq
    obtain ⟨file, tr, -, hf, -, -, ht, ho, -⟩ := GetConsoleLogFormated_nonempty os2 st2 q level hq
    rw [ht, hf, openCalls_append, ho]
    simp
  refine ⟨?_, ?_, ?_, ?_⟩
  · intro ha
    have h := key os st p hp
    simpa [resolveFilename, ha] using h
  · intro ha
    have h := key os st p hp
    simpa [resolveFilename, ha] using h
  · intro os1 st1 hd
    have h := key os1 st1 "access.log" (by decide)
    rw [hd] at h
    have e : resolveFilename "/var/log/relay" "access.log" = "/var/log/relay/access.log" := by
      decide
    rw [e] at h
    exact h
  · intro isabs ds ps hds hps hdpl hppl hdir hpath
    have h := key os st p hp
    have e : resolveFilename st.logDir p = st.logDir ++ "/" ++ p := by
      rw [hdir, hpath]
      simp only [resolveFilename, IsAbs_joinElems ps hppl, Bool.not_false, if_true]
      exact Join_plain isabs ds ps hds hps hdpl hppl
    rw [e] at h
    exact h

/-- Witness of C3 on the sample system: a relative and non-empty path. -/
theorem GetConsoleLogFormated_resolved_path_witness :
    "access.log" ≠ "" ∧
    (openCalls (GetConsoleLogFormated sampleOS sampleState "access.log" "warn").2.trace).map
        (fun c => c.1) = ["/var/log/relay/access.log"] ∧
    (GetConsoleLogFormated sampleOS sampleState "access.log" "warn").2.logfiles.map
        (fun f => f.Name) = ["/var/log/relay/access.log"] ∧
    (GetConsoleLogFormated sampleOS sampleState "access.log" "warn").2.logfiles.map
        (fun f => f.Name) = [sampleState.logDir ++ "/" ++ "access.log"] := by
  have h := GetConsoleLogFormated_resolved_path sampleOS sampleState "access.log" "warn"
    (by decide)
  have h2 := h.2.1 (by decide)
  have h4 := h.2.2.2 true ["var".data, "log".data, "relay".data] ["access.log".data]
    (by decide) (by decide) (by decide) (by decide) (by decide) (by decide)
  have e : Join [sampleState.logDir, "access.log"] = "/var/log/relay/access.log" := by decide
  rw [e] at h2
  exact ⟨by decide, h2.1, h2.2, h4.2⟩

/-! ## Open failure (C5) -/

/-- C5: for a non-empty path, `GetConsoleLogFormated` (a total function: it
always returns a logger) grows the sink collection by exactly one entry; when
the open fails with `err`, that entry holds the resolved path and a nil
handle, the failure is logged at error level, and the returned logger is
bound to the nil file, not to standard error. -/
theorem GetConsoleLogFormated_open_failure {W : Type} (os : OS W) (st : State W)
    (p level : String) (hp : p ≠ "") :
    (GetConsoleLogFormated os st p level).2.logfiles.length = st.logfiles.length + 1 ∧
    (∀ err : String,
      (os.OpenFile st.world (resolveFilename st.logDir p) openFlags 0o644).1
        = Except.error err →
      (GetConsoleLogFormated os st p level).2.logfiles
        = st.logfiles ++ [{ Name := resolveFilename st.logDir p, File := none }] ∧
      (GetConsoleLogFormated os st p level).1
        = levelSwitch (log_Output { Out := none, TimeFormat := timeFormat }) level ∧
      (GetConsoleLogFormated os st p level).1.w.Out = none ∧
      (GetConsoleLogFormated os st p level).1.w.Out ≠ some Stderr ∧
      logsAt Level.ErrorLevel (GetConsoleLogFormated os st p level).2.trace
        = logsAt Level.ErrorLevel st.trace ++
          ["Error on opening file " ++ resolveFilename st.logDir p ++ " : ERROR: " ++ err] ∧
      openCalls (GetConsoleLogFormated os st p level).2.trace
        = openCalls st.trace ++ [(resolveFilename st.logDir p, none)]) := by
  constructor
  · obtain ⟨file, tr, -, hf, -⟩ := GetConsoleLogFormated_nonempty os st p level hp
    rw [hf]
    simp
  · intro err ho
    rw [GetConsoleLogFormated_error os st p level hp err ho]
    refine ⟨rfl, rfl, ?_, ?_, ?_, ?_⟩
    · rw [levelSwitch_w]; rfl
    · rw [levelSwitch_w]; simp [log_Output]
    · simp only [logsAt_append]
      simp [logsAt]
    · simp only [openCalls_append]
      simp [openCalls]

/-- Witness of C5 on the sample system: a path whose open fails. -/
theorem GetConsoleLogFormated_open_failure_witness :
    "/nonexistent/relay.log" ≠ "" ∧
    (GetConsoleLogFormated sampleOS sampleState "/nonexistent/relay.log" "info").2.logfiles.length
      = sampleState.logfiles.length + 1 ∧
    (GetConsoleLogFormated sampleOS sampleState "/nonexistent/relay.log" "info").2.logfiles
      = sampleState.logfiles ++
        [{ Name := resolveFilename sampleState.logDir "/nonexistent/relay.log", File := none }] :=
  ⟨by decide,
   (GetConsoleLogFormated_open_failure sampleOS sampleState "/nonexistent/relay.log" "info"
      (by decide)).1,
   ((GetConsoleLogFormated_open_failure sampleOS sampleState "/nonexistent/relay.log" "info"
      (by decide)).2 "no such file or directory" rfl).1⟩

/-! ## Bulk close (C6), reset (C7) -/

theorem closeOne_spec {W : Type} (os : OS W) (st : State W) (f : LogFile) :
    ∃ tr : List Event,
      (closeOne os st f).trace = st.trace ++ tr ∧
      closeCalls tr = [(f.File, (File_Close os st.world f.File).1)] ∧
      logsAt Level.ErrorLevel tr
        = (closeReport (f, f.File, (File_Close os st.world f.File).1)).toList ∧
      openCalls tr = [] ∧
      (closeOne os st f).logfiles = st.logfiles ∧
      (closeOne os st f).logDir = st.logDir ∧
      (closeOne os st f).relayVersion = st.relayVersion := by
  cases hr : (File_Close os st.world f.File).1 with
  | none =>
    refine ⟨[Event.close f.File none,
      Event.log Level.InfoLevel ("log file " ++ f.Name ++ ": closed ok!")], ?_, ?_, ?_, ?_,
      rfl, rfl, rfl⟩
    · simp only [closeOne, hr, List.append_assoc, List.singleton_append]
    · simp [closeCalls]
    · simp [logsAt, closeReport]
    · simp [openCalls]
  | some err =>
    refine ⟨[Event.close f.File (some err),
      Event.log Level.ErrorLevel ("Error on close log file " ++ f.Name ++ ":  Err: " ++ err),
      Event.log Level.InfoLevel ("log file " ++ f.Name ++ ": closed ok!")], ?_, ?_, ?_, ?_,
      rfl, rfl, rfl⟩
    · simp only [closeOne, hr, List.append_assoc, List.singleton_append, List.cons_append,
        List.nil_append]
    · simp [closeCalls]
    · simp [logsAt, closeReport]
    · simp [openCalls]

theorem closeLoop_spec {W : Type} (os : OS W) (fs : List LogFile) (st : State W) :
    ∃ tr : List Event,
      (fs.foldl (closeOne os) st).trace = st.trace ++ tr ∧
      (closeCalls tr).map (fun c => c.1) = fs.map (fun f => f.File) ∧
      logsAt Level.ErrorLevel tr = (fs.zip (closeCalls tr)).filterMap closeReport ∧
      (∀ c ∈ closeCalls tr, c.1 = none → c.2 = some "invalid argument") ∧
      openCalls tr = [] ∧
      (fs.foldl (closeOne os) st).logfiles = st.logfiles ∧
      (fs.foldl (closeOne os) st).logDir = st.logDir ∧
      (fs.foldl (closeOne os) st).relayVersion = st.relayVersion := by
  induction fs generalizing st with
  | nil => exact ⟨[], by simp, rfl, rfl, by simp [closeCalls], rfl, rfl, rfl, rfl⟩
  | cons f fs ih =>
    obtain ⟨tr1, ht1, hc1, he1, ho1, hl1, hd1, hv1⟩ := closeOne_spec os st f
    obtain ⟨tr2, ht2, hc2, he2, hn2, ho2, hl2, hd2, hv2⟩ := ih (closeOne os st f)
    refine ⟨tr1 ++ tr2, ?_, ?_, ?_, ?_, ?_, ?_, ?_, ?_⟩
    · rw [List.foldl_cons, ht2, ht1, List.append_assoc]
    · rw [closeCalls_append, hc1]
      simp [hc2]
    · rw [logsAt_append, closeCalls_append, hc1, he1, he2]
      cases hr : closeReport (f, f.File, (File_Close os st.world f.File).1) with
      | none => simp [List.filterMap_cons, hr]
      | some m => simp [List.filterMap_cons, hr]
    · intro c hc hnone
      rw [closeCalls_append, hc1] at hc
      rcases List.mem_append.mp hc with h | h
      · rw [List.mem_singleton] at h
        subst h
        simp only at hnone
        simp only [hnone, File_Close]
      · exact hn2 c h hnone
    · rw [openCalls_append, ho1, ho2]
      rfl
    · rw [List.foldl_cons, hl2, hl1]
    · rw [List.foldl_cons, hd2, hd1]
    · rw [List.foldl_cons, hv2, hv1]

/-- C6: `CloseLogFiles` calls `Close` once on the handle of every tracked sink,
in registration order, nil handles included (a nil handle answers
"invalid argument", nothing panics); the messages it logs at error level are,
in order, those naming each sink whose close answered an error, so a failure
on one sink stops neither the later closes nor their reports. The sink
collection, `logDir` and `relayVersion` are left as they were and no file is
opened. -/
theorem CloseLogFiles_all_attempted {W : Type} (os : OS W) (st : State W) :
    ∃ tr : List Event,
      (CloseLogFiles os st).trace = st.trace ++ tr ∧
      (closeCalls tr).map (fun c => c.1) = st.logfiles.map (fun f => f.File) ∧
      (closeCalls tr).length = st.logfiles.length ∧
      logsAt Level.ErrorLevel tr = (st.logfiles.zip (closeCalls tr)).filterMap closeReport ∧
      (∀ c ∈ closeCalls tr, c.1 = none → c.2 = some "invalid argument") ∧
      openCalls tr = [] ∧
      (CloseLogFiles os st).logfiles = st.logfiles ∧
      (CloseLogFiles os st).logDir = st.logDir ∧
      (CloseLogFiles os st).relayVersion = st.relayVersion := by
  obtain ⟨tr, ht, hc, he, hn, ho, hl, hd, hv⟩ := closeLoop_spec os st.logfiles st
  refine ⟨tr, ht, hc, ?_, he, hn, ho, hl, hd, hv⟩
  have := congrArg List.length hc
  simpa using this

/-- C7: `ResetLogFiles` empties the sink collection and changes nothing else
(no `Close` call, no event at all, same world, `logDir` and `relayVersion`);
a `CloseLogFiles` directly after it changes nothing: no close, no message. -/
theorem ResetLogFiles_then_close {W : Type} (os : OS W) (st : State W) :
    (ResetLogFiles st).logfiles = [] ∧
    (ResetLogFiles st).trace = st.trace ∧
    (ResetLogFiles st).world = st.world ∧
    (ResetLogFiles st).logDir = st.logDir ∧
    (ResetLogFiles st).relayVersion = st.relayVersion ∧
    CloseLogFiles os (ResetLogFiles st) = ResetLogFiles st ∧
    (CloseLogFiles os (ResetLogFiles st)).trace = st.trace ∧
    closeCalls (CloseLogFiles os (ResetLogFiles st)).trace = closeCalls st.trace :=
  ⟨rfl, rfl, rfl, rfl, rfl, rfl, rfl, rfl⟩

/-! ## The sink collection only grows (C8) -/

/-- C8: every operation other than `ResetLogFiles` leaves the sink collection
a prefix of the new one; `CloseLogFiles`, `SetLogdir` and `SetVersion` leave
it as it is; `SetLogdir` and `SetVersion` write their own field only, and the
last write wins. -/
theorem logfiles_append_only {W : Type} (os : OS W) (st : State W) (op : Op)
    (hop : op ≠ Op.ResetLogFiles) :
    st.logfiles <+: (step os st op).logfiles ∧
    (CloseLogFiles os st).logfiles = st.logfiles ∧
    (∀ ld : String, SetLogdir st ld = { st with logDir := ld }) ∧
    (∀ v : String, SetVersion st v = { st with relayVersion := v }) ∧
    (∀ a b : String, SetLogdir (SetLogdir st a) b = SetLogdir st b) ∧
    (∀ a b : String, SetVersion (SetVersion st a) b = SetVersion st b) := by
  have hclose : (CloseLogFiles os st).logfiles = st.logfiles := by
    obtain ⟨tr, -, -, -, -, -, hl, -⟩ := closeLoop_spec os st.logfiles st
    exact hl
  refine ⟨?_, hclose, fun _ => rfl, fun _ => rfl, fun _ _ => rfl, fun _ _ => rfl⟩
  cases op with
  | SetLogdir ld => exact List.prefix_refl _
  | SetVersion v => exact List.prefix_refl _
  | ResetLogFiles => exact absurd rfl hop
  | CloseLogFiles =>
    show st.logfiles <+: (CloseLogFiles os st).logfiles
    rw [hclose]
  | GetConsoleLogFormated logfile level =>
    show st.logfiles <+: (GetConsoleLogFormated os st logfile level).2.logfiles
    by_cases hp : logfile = ""
    · subst hp
      rw [GetConsoleLogFormated_empty]
    · obtain ⟨file, tr, -, hf, -⟩ := GetConsoleLogFormated_nonempty os st logfile level hp
      rw [hf]
      exact List.prefix_append _ _

/-- Witness of C8 on the sample system: a call that registers a sink. -/
theorem logfiles_append_only_witness :
    Op.GetConsoleLogFormated "access.log" "warn" ≠ Op.ResetLogFiles ∧
    sampleState.logfiles <+:
      (step sampleOS sampleState (Op.GetConsoleLogFormated "access.log" "warn")).logfiles :=
  ⟨by decide,
   (logfiles_append_only sampleOS sampleState (Op.GetConsoleLogFormated "access.log" "warn")
      (by decide)).1⟩

/-! ## Sequences of calls (C4) -/

theorem runCalls_spec {W : Type} (os : OS W) (calls : List (String × String)) (st : State W)
    (hne : ∀ c ∈ calls, c.1 ≠ "") :
    ∃ (tr : List Event) (new : List LogFile),
      (runCalls os st calls).2.trace = st.trace ++ tr ∧
      (runCalls os st calls).2.logDir = st.logDir ∧
      (runCalls os st calls).2.logfiles = st.logfiles ++ new ∧
      new.map (fun f => f.Name) = calls.map (fun c => resolveFilename st.logDir c.1) ∧
      new.map (fun f => f.File) = (runCalls os st calls).1.map (fun l => l.w.Out) ∧
      openCalls tr = new.map (fun f => (f.Name, f.File)) := by
  induction calls generalizing st with
  | nil => exact ⟨[], [], by simp [runCalls], rfl, by simp [runCalls], rfl, rfl, rfl⟩
  | cons c cs ih =>
    have hc : c.1 ≠ "" := hne c (List.mem_cons_self _ _)
    obtain ⟨file, tr1, hout, hf, hd, -, ht, ho, -⟩ :=
      GetConsoleLogFormated_nonempty os st c.1 c.2 hc
    obtain ⟨tr2, new2, ht2, hd2, hf2, hn2, hh2, ho2⟩ :=
      ih (GetConsoleLogFormated os st c.1 c.2).2 (fun x hx => hne x (List.mem_cons_of_mem _ hx))
    refine ⟨tr1 ++ tr2, { Name := resolveFilename st.logDir c.1, File := file } :: new2,
      ?_, ?_, ?_, ?_, ?_, ?_⟩
    · simp only [runCalls]
      rw [ht2, ht, List.append_assoc]
    · simp only [runCalls]
      rw [hd2, hd]
    · simp only [runCalls]
      rw [hf2, hf, List.append_assoc]
      rfl
    · rw [hd] at hn2
      simp [hn2]
    · simp only [runCalls, List.map_cons, hout, hh2]
    · rw [openCalls_append, ho, ho2]
      rfl

/-- C4: starting from an empty sink collection, after a sequence of
`GetConsoleLogFormated` calls with non-empty paths whose opens all succeed,
the collection has one entry per call, in call order; the entry of a call
carries the path resolved for that call and the file returned to it (the one
its logger writes to), which is not nil. Equal paths are not merged: nothing
is assumed about the paths being distinct. -/
theorem runCalls_registry {W : Type} (os : OS W) (st : State W)
    (calls : List (String × String)) (h0 : st.logfiles = [])
    (hne : ∀ c ∈ calls, c.1 ≠ "")
    (hok : ∀ c ∈ openCalls ((runCalls os st calls).2.trace.drop st.trace.length),
      c.2 ≠ none) :
    (runCalls os st calls).2.logfiles.length = calls.length ∧
    (runCalls os st calls).2.logfiles.map (fun f => f.Name)
      = calls.map (fun c => resolveFilename st.logDir c.1) ∧
    (runCalls os st calls).2.logfiles.map (fun f => f.File)
      = (runCalls os st calls).1.map (fun l => l.w.Out) ∧
    (runCalls os st calls).2.logfiles.map (fun f => (f.Name, f.File))
      = openCalls ((runCalls os st calls).2.trace.drop st.trace.length) ∧
    (∀ f ∈ (runCalls os st calls).2.logfiles, f.File ≠ none) := by
  obtain ⟨tr, new, ht, -, hf, hn, hh, ho⟩ := runCalls_spec os calls st hne
  have hdrop : (runCalls os st calls).2.trace.drop st.trace.length = tr := by
    rw [ht]
    simp
  rw [hdrop] at hok ⊢
  rw [hf, h0, List.nil_append]
  refine ⟨?_, hn, hh, ho.symm, ?_⟩
  · have := congrArg List.length hn
    simpa using this
  · intro f hfm
    apply hok (f.Name, f.File)
    rw [ho]
    exact List.mem_map_of_mem _ hfm

/-- Witness of C4 on the sample system: three calls, two of them with the same
path. -/
theorem runCalls_registry_witness :
    sampleState.logfiles = [] ∧
    (runCalls sampleOS sampleState
        [("access.log", "warn"), ("access.log", "debug"), ("/tmp/relay.log", "info")]
      ).2.logfiles.length = 3 ∧
    (runCalls sampleOS sampleState
        [("access.log", "warn"), ("access.log", "debug"), ("/tmp/relay.log", "info")]
      ).2.logfiles.map (fun f => f.Name)
      = [("access.log", "warn"), ("access.log", "debug"), ("/tmp/relay.log", "info")].map
          (fun c => resolveFilename sampleState.logDir c.1) :=
  ⟨rfl,
   (runCalls_registry sampleOS sampleState
      [("access.log", "warn"), ("access.log", "debug"), ("/tmp/relay.log", "info")]
      rfl (by decide) (by decide)).1,
   (runCalls_registry sampleOS sampleState
      [("access.log", "warn"), ("access.log", "debug"), ("/tmp/relay.log", "info")]
      rfl (by decide) (by decide)).2.1⟩


/-! ## Facts about `strings.Index` and `strings.genSplit` -/

theorem Index_head_not_mem (s0 : Char) (st a rest : List Char) (h : s0 ∉ a) :
    Index (a ++ (s0 :: st) ++ rest) (s0 :: st) = some a.length := by
  induction a with
  | nil =>
    have hp : (s0 :: st).isPrefixOf (s0 :: (st ++ rest)) = true := by
      rw [List.isPrefixOf_iff_prefix]
      exact List.prefix_append (s0 :: st) rest
    simp only [List.nil_append, List.cons_append, Index, List.length_nil]
    exact if_pos hp
  | cons c cs ih =>
    have hc : s0 ≠ c := fun e => h (e ▸ List.mem_cons_self _ _)
    have hcs : s0 ∉ cs := fun e => h (List.mem_cons_of_mem _ e)
    have hp : (s0 :: st).isPrefixOf (c :: (cs ++ (s0 :: st) ++ rest)) = false := by
      rw [List.isPrefixOf_cons₂]
      simp [hc]
    have ih1 := ih hcs
    simp only [List.cons_append, List.append_assoc] at hp ih1 ⊢
    simp only [Index, hp, ih1, Option.map_some', List.length_cons]
    simp

theorem Index_none_of_head_not_mem (s0 : Char) (st s : List Char) (h : s0 ∉ s) :
    Index s (s0 :: st) = none := by
  induction s with
  | nil => simp [Index]
  | cons c cs ih =>
    have hc : s0 ≠ c := fun e => h (e ▸ List.mem_cons_self _ _)
    have hcs : s0 ∉ cs := fun e => h (List.mem_cons_of_mem _ e)
    have hp : (s0 :: st).isPrefixOf (c :: cs) = false := by
      rw [List.isPrefixOf_cons₂]
      simp [hc]
    simp only [Index, hp, ih hcs, Option.map_none']
    simp

/-- An instance of `substr` found at index `i` lies inside `s`. -/
theorem Index_bound (substr : List Char) :
    ∀ (s : List Char) (i : Nat), Index s substr = some i → i + substr.length ≤ s.length := by
  intro s
  induction s with
  | nil =>
    intro i h
    cases substr with
    | nil =>
      simp only [Index, List.isPrefixOf, if_true, Option.some.injEq] at h
      subst h
      simp
    | cons x xs => simp [Index, List.isPrefixOf] at h
  | cons c cs ih =>
    intro i h
    simp only [Index] at h
    split at h
    · rename_i hp
      simp only [Option.some.injEq] at h
      subst h
      rw [List.isPrefixOf_iff_prefix] at hp
      simpa using hp.length_le
    · simp only [Option.map_eq_some'] at h
      obtain ⟨j, hj, rfl⟩ := h
      have := ih j hj
      simp only [List.length_cons]
      omega

/-- The loop of `strings.Count` never runs out of iterations: beyond the
length of `s`, the bound does not matter. -/
theorem countLoop_fuel (sep : List Char) (hsep : sep ≠ []) (f1 : Nat) :
    ∀ (f2 : Nat) (s : List Char) (n : Nat), s.length < f1 → s.length < f2 →
      countLoop sep f1 s n = countLoop sep f2 s n := by
  have hlen : 1 ≤ sep.length := by
    cases sep with
    | nil => exact absurd rfl hsep
    | cons x xs => simp
  induction f1 with
  | zero =>
    intro f2 s n h1
    exact absurd h1 (Nat.not_lt_zero _)
  | succ k ih =>
    intro f2 s n h1 h2
    cases f2 with
    | zero => exact absurd h2 (Nat.not_lt_zero _)
    | succ k2 =>
      simp only [countLoop]
      cases hi : Index s sep with
      | none => rfl
      | some i =>
        have hb := Index_bound sep s i hi
        have hd : (s.drop (i + sep.length)).length < s.length := by
          simp only [List.length_drop]
          omega
        exact ih k2 _ _ (by omega) (by omega)

theorem countLoop_ge (sep : List Char) (fuel : Nat) (s : List Char) (n : Nat) :
    n ≤ countLoop sep fuel s n := by
  induction fuel generalizing s n with
  | zero => simp [countLoop]
  | succ k ih =>
    simp only [countLoop]
    cases Index s sep with
    | none => exact Nat.le_refl n
    | some i => exact Nat.le_trans (Nat.le_succ n) (ih _ _)

theorem genSplitLoop_ne_nil (sep : List Char) (sepSave k : Nat) (s : List Char) :
    genSplitLoop sep sepSave k s ≠ [] := by
  cases k with
  | zero => simp [genSplitLoop]
  | succ k =>
    simp only [genSplitLoop]
    cases Index s sep <;> simp

/-- The call `strings.Split(s, sep)` when `sep` is not empty and does not occur
in `s`: the one-element slice holding `s`. -/
theorem genSplit_all_of_Index_none (s sep : List Char) (hsep : sep ≠ [])
    (hi : Index s sep = none) : genSplit s sep 0 (-1) = [s] := by
  have he : sep.isEmpty = false := by
    cases sep with
    | nil => exact absurd rfl hsep
    | cons c cs => rfl
  have hc : Count s sep = 0 := by
    simp [Count, he, countLoop, hi]
  simp [genSplit, he, hc, genSplitLoop]

/-- The call `strings.Split(s, sep)` when `sep` is not empty and first occurs in
`s` at index `m`: at least two elements, the first one being `s[:m]`. -/
theorem genSplit_all_of_Index_some (s sep : List Char) (m : Nat) (hsep : sep ≠ [])
    (hs : 1 ≤ s.length) (hi : Index s sep = some m) :
    ∃ x xs, genSplit s sep 0 (-1) = s.take m :: x :: xs := by
  have he : sep.isEmpty = false := by
    cases sep with
    | nil => exact absurd rfl hsep
    | cons c cs => rfl
  have hc : 1 ≤ Count s sep := by
    simp only [Count, he, countLoop, hi]
    exact countLoop_ge _ _ _ _
  obtain ⟨k, hk⟩ : ∃ k,
      (if Count s sep + 1 > s.length + 1 then s.length + 1 else Count s sep + 1) - 1 = k + 1 := by
    split
    · exact ⟨s.length - 1, by omega⟩
    · exact ⟨Count s sep - 1, by omega⟩
  have hg : genSplit s sep 0 (-1) = genSplitLoop sep 0 (k + 1) s := by
    simp only [genSplit, he]
    rw [← hk]
    simp
  rw [hg]
  simp only [genSplitLoop, hi, Nat.add_zero]
  cases hr : genSplitLoop sep 0 k (List.drop (m + sep.length) s) with
  | nil => exact absurd hr (genSplitLoop_ne_nil _ _ _ _)
  | cons x xs => exact ⟨x, xs, rfl⟩

/-- The call `strings.SplitN(s, sep, 2)` for a non-empty `sep`. -/
theorem genSplit_two (s sep : List Char) (hsep : sep ≠ []) :
    genSplit s sep 0 2 =
      match Index s sep with
      | none => [s]
      | some m => [s.take m, s.drop (m + sep.length)] := by
  have he : sep.isEmpty = false := by
    cases sep with
    | nil => exact absurd rfl hsep
    | cons c cs => rfl
  cases s with
  | nil =>
    cases sep with
    | nil => exact absurd rfl hsep
    | cons c cs => simp [genSplit, Index, genSplitLoop]
  | cons x xs =>
    simp only [genSplit, he]
    cases hi : Index (x :: xs) sep with
    | none => simp [genSplitLoop, hi]
    | some m => simp [genSplitLoop, hi]

theorem String_intercalate_go_data (sep : String) (as : List String) (acc : String) :
    (String.intercalate.go acc sep as).data
      = acc.data ++ (as.map fun a => sep.data ++ a.data).flatten := by
  induction as generalizing acc with
  | nil => simp [String.intercalate.go]
  | cons a as ih =>
    simp only [String.intercalate.go, ih, String.data_append, List.map_cons, List.flatten_cons,
      List.append_assoc]

theorem String_intercalate_cons_cons_data (sep a b : String) (rest : List String) :
    (String.intercalate sep (a :: b :: rest)).data
      = a.data ++ sep.data ++ (String.intercalate sep (b :: rest)).data := by
  simp only [String.intercalate, String_intercalate_go_data, List.map_cons, List.flatten_cons,
    List.append_assoc]

/-! ## The source of a request (C9) -/

theorem Split_comma_space_of_data (s a : String) (X : List Char)
    (ha : ',' ∉ a.data) (hs : s.data = a.data ++ [',', ' '] ++ X) :
    ∃ x xs, Split s ", " = a :: x :: xs := by
  have hi : Index s.data [',', ' '] = some a.data.length := by
    rw [hs]
    exact Index_head_not_mem ',' [' '] a.data X ha
  have hlen : 1 ≤ s.data.length := by
    rw [hs]
    simp only [List.length_append, List.length_cons, List.length_nil]
    omega
  obtain ⟨x, xs, hx⟩ :=
    genSplit_all_of_Index_some s.data [',', ' '] a.data.length (by simp) hlen hi
  refine ⟨String.mk x, xs.map String.mk, ?_⟩
  have hd : (", " : String).data = [',', ' '] := rfl
  simp only [Split, hd, hx, List.map_cons]
  congr 1
  rw [hs]
  simp

theorem Split_comma_space_of_no_comma (s : String) (h : ',' ∉ s.data) :
    Split s ", " = [s] := by
  have hd : (", " : String).data = [',', ' '] := rfl
  have hi : Index s.data [',', ' '] = none := Index_none_of_head_not_mem ',' [' '] s.data h
  simp only [Split, hd, genSplit_all_of_Index_none s.data [',', ' '] (by simp) hi, List.map_cons,
    List.map_nil]

/-- C9, the code at the failing input: with the header `1.1.1.1,2.2.2.2` (a
list of two addresses separated by a comma) `GetSourceFromRequest` returns
the whole header value as its first result, not the first address
`1.1.1.1` that the claim and the comments at utils.go:40-42 ("If we got an
array... grab the first IP") call for. -/
theorem GetSourceFromRequest_comma_only :
    commaOnlyRequest.Header.Get "X-Forwarded-For"
      = String.intercalate "," ["1.1.1.1", "2.2.2.2"] ∧
    GetSourceFromRequest commaOnlyRequest = ("1.1.1.1,2.2.2.2", "1.1.1.1,2.2.2.2") ∧
    (GetSourceFromRequest commaOnlyRequest).1 ≠ "1.1.1.1" := by
  decide

/-- The inputs on which `GetSourceFromRequest` does extract the source: when
the `X-Forwarded-For` header holds two or more addresses (strings without a
comma) separated by a comma followed by a space, the results are the first
address and the full header value; when the header holds a single address
both results are that address; when the header is absent or empty both
results are `RemoteAddr`. -/
theorem GetSourceFromRequest_forwarded (r : Request) :
    (∀ ips : List String, 2 ≤ ips.length → (∀ ip ∈ ips, ',' ∉ ip.data) →
      r.Header.Get "X-Forwarded-For" = String.intercalate ", " ips →
      GetSourceFromRequest r = (ips.headD "", String.intercalate ", " ips)) ∧
    (∀ ip : String, ip ≠ "" → ',' ∉ ip.data →
      r.Header.Get "X-Forwarded-For" = ip → GetSourceFromRequest r = (ip, ip)) ∧
    (r.Header.lookup "X-Forwarded-For" = none →
      GetSourceFromRequest r = (r.RemoteAddr, r.RemoteAddr)) ∧
    (r.Header.Get "X-Forwarded-For" = "" →
      GetSourceFromRequest r = (r.RemoteAddr, r.RemoteAddr)) := by
  refine ⟨?_, ?_, ?_, ?_⟩
  · intro ips hlen hno hget
    match ips, hlen, hno, hget with
    | a :: b :: rest, _, hno, hget =>
      have ha : ',' ∉ a.data := hno a (List.mem_cons_self _ _)
      have hs : (String.intercalate ", " (a :: b :: rest)).data
          = a.data ++ [',', ' '] ++ (String.intercalate ", " (b :: rest)).data :=
        String_intercalate_cons_cons_data ", " a b rest
      obtain ⟨x, xs, hx⟩ := Split_comma_space_of_data _ a _ ha hs
      have hne : String.intercalate ", " (a :: b :: rest) ≠ "" := by
        intro e
        have := congrArg String.data e
        rw [hs] at this
        simp at this
      simp only [GetSourceFromRequest, hget, hne, ne_eq, not_false_eq_true, if_true, hx,
        List.headD_cons]
  · intro ip hne hno hget
    simp only [GetSourceFromRequest, hget, hne, ne_eq, not_false_eq_true, if_true,
      Split_comma_space_of_no_comma ip hno]
  · intro hl
    simp [GetSourceFromRequest, Values.Get, hl]
  · intro hget
    simp [GetSourceFromRequest, hget]

/-- The header `1.1.1.1, 2.2.2.2`, split on its comma and space. -/
theorem GetSourceFromRequest_forwarded_witness :
    2 ≤ ["1.1.1.1", "2.2.2.2"].length ∧
    forwardedRequest.Header.Get "X-Forwarded-For"
      = String.intercalate ", " ["1.1.1.1", "2.2.2.2"] ∧
    GetSourceFromRequest forwardedRequest
      = ((["1.1.1.1", "2.2.2.2"] : List String).headD "",
          String.intercalate ", " ["1.1.1.1", "2.2.2.2"]) :=
  ⟨by decide, by decide,
   (GetSourceFromRequest_forwarded forwardedRequest).1 ["1.1.1.1", "2.2.2.2"]
     (by decide) (by decide) (by decide)⟩

/-! ## The user of a request (C10) -/

theorem Index_singleton_none (c : Char) (s : List Char) (h : Index s [c] = none) :
    s.takeWhile (fun x => x != c) = s := by
  induction s with
  | nil => rfl
  | cons x xs ih =>
    simp only [Index, List.isPrefixOf_cons₂, List.isPrefixOf] at h
    by_cases hx : c = x
    · subst hx
      simp at h
    · have hx1 : (c == x) = false := by simpa using hx
      simp only [hx1, Bool.false_and, Bool.false_eq_true, if_false, Option.map_eq_none'] at h
      have hx2 : (x != c) = true := by
        simp only [bne_iff_ne, ne_eq]
        exact fun e => hx e.symm
      rw [List.takeWhile_cons, hx2, ih h]
      rfl

theorem Index_singleton_some (c : Char) (s : List Char) (m : Nat) (h : Index s [c] = some m) :
    s.take m = s.takeWhile (fun x => x != c) ∧ s = s.take m ++ c :: s.drop (m + 1) := by
  induction s generalizing m with
  | nil => simp [Index] at h
  | cons x xs ih =>
    simp only [Index, List.isPrefixOf_cons₂, List.isPrefixOf] at h
    by_cases hx : c = x
    · subst hx
      simp only [beq_self_eq_true, Bool.and_self, if_true, Option.some.injEq] at h
      subst h
      simp
    · have hx1 : (c == x) = false := by simpa using hx
      simp only [hx1, Bool.false_and, Bool.false_eq_true, if_false, Option.map_eq_some'] at h
      obtain ⟨k, hk, rfl⟩ := h
      have hx2 : (x != c) = true := by
        simp only [bne_iff_ne, ne_eq]
        exact fun e => hx e.symm
      obtain ⟨h1, h2⟩ := ih k hk
      constructor
      · rw [List.takeWhile_cons, hx2, List.take_succ_cons, h1]
        rfl
      · rw [List.take_succ_cons, List.drop_succ_cons, List.cons_append, ← h2]

/-- The first element of `strings.SplitN(s, ":", 2)` is the part of `s` before
its first colon (all of `s` when it has none). -/
theorem SplitN_colon_head (s : String) :
    ∃ tl, SplitN s ":" 2 = String.mk (s.data.takeWhile (fun x => x != ':')) :: tl := by
  have hd : (":" : String).data = [':'] := rfl
  simp only [SplitN, hd, genSplit_two s.data [':'] (by simp)]
  cases hi : Index s.data [':'] with
  | none =>
    refine ⟨[], ?_⟩
    simp only [List.map_cons, List.map_nil, Index_singleton_none ':' s.data hi]
  | some m =>
    refine ⟨[String.mk (s.data.drop (m + 1))], ?_⟩
    simp only [List.map_cons, List.map_nil, (Index_singleton_some ':' s.data m hi).1,
      List.length_singleton]

/-- The call `strings.SplitN(h, " ", 2)` on a header of the form
`Basic <payload>`. -/
theorem SplitN_space_of_basic (payload : String) :
    SplitN ("Basic " ++ payload) " " 2 = ["Basic", payload] := by
  have hd : (" " : String).data = [' '] := rfl
  have hb : ("Basic " ++ payload).data = "Basic".data ++ [' '] ++ payload.data := by
    rw [String.data_append]
    rfl
  have hi : Index ("Basic " ++ payload).data [' '] = some 5 := by
    rw [hb]
    exact Index_head_not_mem ' ' [] "Basic".data payload.data (by decide)
  simp only [SplitN, hd, genSplit_two _ [' '] (by simp), hi, List.map_cons, List.map_nil,
    List.length_singleton]
  rw [hb]
  rfl

/-- When `strings.SplitN(h, " ", 2)` has two elements, `h` is the first, a
space, and the second. -/
theorem SplitN_space_two (h a0 a1 : String) (hs : SplitN h " " 2 = [a0, a1]) :
    h = a0 ++ " " ++ a1 := by
  have hd : (" " : String).data = [' '] := rfl
  simp only [SplitN, hd, genSplit_two h.data [' '] (by simp)] at hs
  cases hi : Index h.data [' '] with
  | none =>
    rw [hi] at hs
    simp at hs
  | some m =>
    rw [hi] at hs
    simp only [List.map_cons, List.map_nil, List.length_singleton, List.cons.injEq,
      and_true] at hs
    obtain ⟨h0, h1⟩ := hs
    have h2 := (Index_singleton_some ' ' h.data m hi).2
    apply String.ext
    rw [String.data_append, String.data_append, ← h0, ← h1, hd]
    simpa using h2

theorem String_length_pos_iff (u : String) : u.length > 0 ↔ u ≠ "" := by
  constructor
  · intro h e
    subst e
    exact absurd h (by decide)
  · exact String_length_pos_of_ne_empty u

/-- C10: `GetUserFromRequest` always returns, and never the empty string. When
the `Authorization` header is `Basic ` followed by a payload, the result is
the part of the decoded payload before its first colon, or "-" if that part
is empty, whatever the query holds; when the header is not of that form
(absent included), the result is the query parameter `u`, or "-" if that is
empty. -/
theorem GetUserFromRequest_spec (DecodeString : String → String) (r : Request) :
    (∃ user : String, GetUserFromRequest DecodeString r = some user ∧ user ≠ "") ∧
    (∀ payload : String, r.Header.Get "Authorization" = "Basic " ++ payload →
      GetUserFromRequest DecodeString r
        = some (if String.mk ((DecodeString payload).data.takeWhile (fun x => x != ':')) = ""
            then "-"
            else String.mk ((DecodeString payload).data.takeWhile (fun x => x != ':')))) ∧
    ((∀ payload : String, r.Header.Get "Authorization" ≠ "Basic " ++ payload) →
      GetUserFromRequest DecodeString r
        = some (if r.Query.Get "u" = "" then "-" else r.Query.Get "u")) := by
  have hdash : ∀ u : String, (if u.length > 0 then u else "-") = if u = "" then "-" else u := by
    intro u
    by_cases hu : u = ""
    · subst hu
      rfl
    · rw [if_pos ((String_length_pos_iff u).2 hu), if_neg hu]
  have hbasic : ∀ payload : String, r.Header.Get "Authorization" = "Basic " ++ payload →
      GetUserFromRequest DecodeString r
        = some (if String.mk ((DecodeString payload).data.takeWhile (fun x => x != ':')) = ""
            then "-"
            else String.mk ((DecodeString payload).data.takeWhile (fun x => x != ':'))) := by
    intro payload hget
    obtain ⟨tl, htl⟩ := SplitN_colon_head (DecodeString payload)
    simp only [GetUserFromRequest, hget, SplitN_space_of_basic, htl, ne_eq, not_true_eq_false,
      if_false, Option.map_some', Bool.not_true, Bool.false_eq_true, hdash]
  have hother : (∀ payload : String, r.Header.Get "Authorization" ≠ "Basic " ++ payload) →
      GetUserFromRequest DecodeString r
        = some (if r.Query.Get "u" = "" then "-" else r.Query.Get "u") := by
    intro hform
    have hres : (match SplitN (r.Header.Get "Authorization") " " 2 with
        | [a0, a1] =>
          if a0 ≠ "Basic" then some ("", false)
          else
            match SplitN (DecodeString a1) ":" 2 with
            | p0 :: _ => some (p0, true)
            | [] => none
        | _ => some ("", false)) = some ("", false) := by
      split
      · rename_i a0 a1 heq
        by_cases ha : a0 = "Basic"
        · subst ha
          exact absurd (SplitN_space_two _ _ _ heq) (hform a1)
        · rw [if_pos ha]
      · rfl
    simp only [GetUserFromRequest, hres, Option.map_some', Bool.not_false, if_true, hdash]
  refine ⟨?_, hbasic, hother⟩
  by_cases hf : ∃ payload : String, r.Header.Get "Authorization" = "Basic " ++ payload
  · obtain ⟨payload, hp⟩ := hf
    refine ⟨_, hbasic payload hp, ?_⟩
    split
    · decide
    · assumption
  · refine ⟨_, hother (fun payload e => hf ⟨payload, e⟩), ?_⟩
    split
    · decide
    · assumption

/-- Witness of C10 with the sample decoder: the header wins over the query. -/
theorem GetUserFromRequest_spec_witness :
    basicRequest.Header.Get "Authorization" = "Basic " ++ "YWRtaW46c2VjcmV0" ∧
    GetUserFromRequest sampleDecode basicRequest
      = some (if String.mk ((sampleDecode "YWRtaW46c2VjcmV0").data.takeWhile (fun x => x != ':')) = ""
          then "-"
          else String.mk ((sampleDecode "YWRtaW46c2VjcmV0").data.takeWhile (fun x => x != ':'))) :=
  ⟨by decide, (GetUserFromRequest_spec sampleDecode basicRequest).2.1 "YWRtaW46c2VjcmV0" (by decide)⟩

/-! ## Evaluations on concrete inputs -/

/-- Go `filepath.Clean` and `filepath.Join` on some paths: plain paths are
kept, empty elements, `.` and `..` are resolved. -/
theorem Clean_Join_evaluations :
    Clean "/var/log/relay/access.log" = "/var/log/relay/access.log" ∧
    Clean "/var/log//relay/../x/./access.log" = "/var/log/x/access.log" ∧
    Clean "../../a/.." = "../.." ∧
    Clean "/.." = "/" ∧
    Clean "" = "." ∧
    Join ["/var/log/relay", "access.log"] = "/var/log/relay/access.log" ∧
    Join ["/var/log/relay", "../x.log"] = "/var/log/x.log" ∧
    Join ["", "access.log"] = "access.log" := by
  decide

/-- Go `strings.Split` and `strings.SplitN` on some inputs. -/
theorem Split_evaluations :
    Split "1.1.1.1, 2.2.2.2, 3.3.3.3" ", " = ["1.1.1.1", "2.2.2.2", "3.3.3.3"] ∧
    Split "1.1.1.1,2.2.2.2" ", " = ["1.1.1.1,2.2.2.2"] ∧
    Split "" ", " = [""] ∧
    SplitN "Basic a b c" " " 2 = ["Basic", "a b c"] ∧
    SplitN "Basic" " " 2 = ["Basic"] ∧
    SplitN "" " " 2 = [""] ∧
    SplitN "a:b:c" ":" 2 = ["a", "b:c"] := by
  decide

/-- Three calls on the sample system, two of them with the same path: three
sinks, with fresh handles, in call order. -/
theorem runCalls_evaluation :
    (runCalls sampleOS sampleState
      [("access.log", "warn"), ("access.log", "debug"), ("/tmp/relay.log", "info")]).2.logfiles
    = [{ Name := "/var/log/relay/access.log", File := some 3 },
       { Name := "/var/log/relay/access.log", File := some 4 },
       { Name := "/tmp/relay.log", File := some 5 }] := by
  decide

/-- On the sample state with a nil handle, a closed handle and an open one,
`CloseLogFiles` calls `Close` on all three in order; the first two fail and
are reported, the third is closed. -/
theorem CloseLogFiles_evaluation :
    closeCalls (CloseLogFiles sampleOS sampleClosingState).trace
      = [(none, some "invalid argument"), (some 3, some "file already closed"),
         (some 4, none)] ∧
    logsAt Level.ErrorLevel (CloseLogFiles sampleOS sampleClosingState).trace
      = ["Error on close log file /nonexistent/relay.log:  Err: invalid argument",
         "Error on close log file /var/log/relay/access.log:  Err: file already closed"] ∧
    (CloseLogFiles sampleOS sampleClosingState).world.opened = [] := by
  decide

/-- The user of some requests, with the sample decoder: a Basic header wins
over the query, also when its user part is empty; any other header and no
header fall back to the query. -/
theorem GetUserFromRequest_evaluations :
    GetUserFromRequest sampleDecode basicRequest = some "admin" ∧
    GetUserFromRequest sampleDecode
      { RemoteAddr := "", Header := [("Authorization", ["Basic OnNlY3JldA=="])],
        Query := [("u", ["guest"])] } = some "-" ∧
    GetUserFromRequest sampleDecode
      { RemoteAddr := "", Header := [("Authorization", ["Bearer t"])],
        Query := [("u", ["guest"])] } = some "guest" ∧
    GetUserFromRequest sampleDecode
      { RemoteAddr := "", Header := [("Authorization", ["basic YWRtaW46c2VjcmV0"])],
        Query := [] } = some "-" ∧
    GetUserFromRequest sampleDecode { RemoteAddr := "", Header := [], Query := [] }
      = some "-" := by
  decide

end Utils
